import Mathlib

/-!
Verification of the telegram-analyzer extraction and analytics pipeline.

Shallow embedding of `src/analyze.py`:

* `Message` and its derived accessor `dateTime` (`Message.dateTime`, which parses the
  raw timestamp with format `%d.%m.%Y %H:%M:%S`, falling back to the part of the string
  before a `" UTC"` fragment — and, in the fallback, overwrites `self.date`).
* `ChatParser`, the incremental extractor driven by tag-open and text-data events
  (`handle_starttag` / `handle_data`).
* The amnesty re-basing block, the common-support alignment loop, the cross-correlation
  cell computation and the most-triggered row scan of `__main__`.

Python strings are modelled as Lean `String`, with the handful of Python string
operations the code uses (`strip`, `split(' ')`, `replace(pat, "")`, `split(' UTC')[0]`)
implemented as structural recursive functions over `List Char` so that every definition
evaluates by kernel reduction.

Calendar dates are modelled as day ordinals (`Nat`); `timedelta(days=1)` is `+ 1`.
Numeric cell values are modelled in `ℚ`.  The real matrix stores
`log10(1 + normalizedSum)`; since `x ↦ log10(1 + x)` is strictly increasing, every
order or zero comparison among matrix cells is equivalent to the same comparison
among the pre-logarithm normalized sums, which is what `cellScore` returns.
-/

/-- Python `str.strip()` (for the whitespace the inputs contain): drop whitespace
from both ends. -/
def pyStrip (s : String) : String :=
  (((s.toList.dropWhile Char.isWhitespace).reverse.dropWhile Char.isWhitespace).reverse).asString

/-- Helper for Python `str.split(' ')`: split on every single space character,
keeping empty fragments, accumulating the current fragment in reverse. -/
def splitOnSpacesGo (cur : List Char) : List Char → List (List Char)
  | [] => [cur.reverse]
  | c :: cs => if c = ' ' then cur.reverse :: splitOnSpacesGo [] cs else splitOnSpacesGo (c :: cur) cs

/-- Python `value.split(' ')`, as used for the `class` attribute token list. -/
def splitOnSpaces (s : String) : List String :=
  (splitOnSpacesGo [] s.toList).map List.asString

/-- Helper for Python `str.replace(pat, "")` with a non-empty pattern: remove every
occurrence of `pat`.  The first argument is fuel, initialised with the length of the
scanned list, which bounds the number of recursive steps since each step consumes at
least one character. -/
def removeAllSub (pat : List Char) : Nat → List Char → List Char
  | _, [] => []
  | 0, l => l
  | Nat.succ f, c :: cs =>
    if pat.isPrefixOf (c :: cs) then removeAllSub pat f ((c :: cs).drop pat.length)
    else c :: removeAllSub pat f cs

/-- Python `s.replace(pat, "")`. -/
def pyRemoveAll (s : String) (pat : String) : String :=
  if pat.toList.isEmpty then s else (removeAllSub pat.toList s.toList.length s.toList).asString

/-- Helper for Python `s.split(' UTC')[0]`: the characters before the first
occurrence of `" UTC"` (the whole list when there is none). -/
def beforeUTCGo : List Char → List Char
  | [] => []
  | c :: cs => if (" UTC".toList).isPrefixOf (c :: cs) then [] else c :: beforeUTCGo cs

/-- Python `s.split(' UTC')[0]`, the fallback date string of `Message.dateTime`. -/
def beforeUTC (s : String) : String := (beforeUTCGo s.toList).asString

/-- The result of a successful `datetime.strptime(_, '%d.%m.%Y %H:%M:%S')`. -/
structure DateTime where
  year : Nat
  month : Nat
  day : Nat
  hour : Nat
  minute : Nat
  second : Nat
deriving DecidableEq, Repr

/-- Numeric value of a digit list. -/
def digitsVal (ds : List Char) : Nat :=
  ds.foldl (fun a c => 10 * a + (c.toNat - '0'.toNat)) 0

/-- Greedily take at most `maxN` (and at least one) leading digits. -/
def takeDigits (maxN : Nat) (cs : List Char) : Option (Nat × List Char) :=
  let ds := (cs.takeWhile Char.isDigit).take maxN
  if ds.isEmpty then none else some (digitsVal ds, cs.drop ds.length)

/-- Take exactly `n` leading digits (the `%Y` directive matches exactly four). -/
def takeDigitsExact (n : Nat) (cs : List Char) : Option (Nat × List Char) :=
  let ds := cs.take n
  if ds.length = n ∧ ds.all Char.isDigit then some (digitsVal ds, cs.drop n) else none

/-- Consume one expected literal character. -/
def expectChar (c : Char) : List Char → Option (List Char)
  | [] => none
  | x :: xs => if x = c then some xs else none

/-- Gregorian leap-year test, as validated by Python `datetime`. -/
def isLeapYear (y : Nat) : Bool :=
  (y % 4 == 0 && y % 100 != 0) || y % 400 == 0

/-- Days in a month, as validated by Python `datetime`. -/
def daysInMonth (y m : Nat) : Nat :=
  if m = 2 then (if isLeapYear y then 29 else 28)
  else if m = 4 ∨ m = 6 ∨ m = 9 ∨ m = 11 then 30
  else 31

/-- Model of `datetime.strptime(s, '%d.%m.%Y %H:%M:%S')` (the only format the program
uses): 1–2 digit day, `.`, 1–2 digit month, `.`, 4-digit year, space, 1–2 digit hour,
`:`, minute, `:`, second; the whole string must be consumed (trailing unconverted data
is a parse error) and the fields must form a valid calendar date and time of day.
Returns `none` where the Python call raises `ValueError`. -/
def parseTimestamp (s : String) : Option DateTime := do
  let cs := s.toList
  let (d, cs) ← takeDigits 2 cs
  let cs ← expectChar '.' cs
  let (mo, cs) ← takeDigits 2 cs
  let cs ← expectChar '.' cs
  let (y, cs) ← takeDigitsExact 4 cs
  let cs ← expectChar ' ' cs
  let (h, cs) ← takeDigits 2 cs
  let cs ← expectChar ':' cs
  let (mi, cs) ← takeDigits 2 cs
  let cs ← expectChar ':' cs
  let (sec, cs) ← takeDigits 2 cs
  if cs = [] ∧ 1 ≤ mo ∧ mo ≤ 12 ∧ 1 ≤ d ∧ d ≤ daysInMonth y mo ∧
      h ≤ 23 ∧ mi ≤ 59 ∧ sec ≤ 59 ∧ 1 ≤ y ∧ y ≤ 9999 then
    some ⟨y, mo, d, h, mi, sec⟩
  else none

/-- The `Message` record: `Message.__init__(self, author, message, date)`. -/
structure Message where
  author : String
  message : String
  date : String
deriving DecidableEq, Repr

/-- Model of `Message.dateTime(self)`: try the primary format; on failure set
`self.date = self.date.split(' UTC')[0]` (a mutation of the record!) and retry.
Returns the parsed datetime together with the message record as it is after the
call; `none` models the uncaught `ValueError` when the retry also fails. -/
def dateTime (m : Message) : Option (DateTime × Message) :=
  match parseTimestamp m.date with
  | some dt => some (dt, m)
  | none =>
    let stripped := beforeUTC m.date
    match parseTimestamp stripped with
    | some dt => some (dt, { m with date := stripped })
    | none => none

/-- The extractor state of `ChatParser.__init__`. -/
structure ChatParser where
  messageAuthor : Option String
  messageText : Option String
  messageDate : Option String
  makeNextDataName : Bool
  makeNextDataText : Bool
  messages : List Message
deriving DecidableEq, Repr

/-- A fresh extractor. -/
def initChatParser : ChatParser := ⟨none, none, none, false, false, []⟩

/-- The body of the `"message" in classList` branch of `handle_starttag`: commit the
pending fields as a new `Message` and clear them — but only when all three are
populated (`!= None`); otherwise the state is left untouched. -/
def commitIfComplete (s : ChatParser) : ChatParser :=
  match s.messageDate, s.messageAuthor, s.messageText with
  | some d, some a, some t =>
    { s with messages := s.messages ++ [⟨a, t, d⟩],
             messageAuthor := none, messageText := none, messageDate := none }
  | _, _, _ => s

/-- The attribute loop of `ChatParser.handle_starttag`, carrying the local
`makeNextAttributeDate` flag `mnad`. -/
def handleAttrs (s : ChatParser) (mnad : Bool) : List (String × String) → ChatParser
  | [] => s
  | (name, value) :: rest =>
    let s1 := if mnad ∧ name = "title" then { s with messageDate := some (pyStrip value) } else s
    let mnad1 := if mnad ∧ name = "title" then false else mnad
    if name = "class" then
      let classList := splitOnSpaces value
      if "message" ∈ classList then handleAttrs (commitIfComplete s1) mnad1 rest
      else if "date" ∈ classList then handleAttrs s1 true rest
      else if "from_name" ∈ classList then handleAttrs { s1 with makeNextDataName := true } mnad1 rest
      else if "text" ∈ classList then handleAttrs { s1 with makeNextDataText := true } mnad1 rest
      else handleAttrs s1 mnad1 rest
    else handleAttrs s1 mnad1 rest

/-- Model of `ChatParser.handle_starttag` (the tag name itself is never inspected). -/
def handle_starttag (s : ChatParser) (_tag : String) (attrs : List (String × String)) : ChatParser :=
  handleAttrs s false attrs

/-- Model of `ChatParser.handle_data`. -/
def handle_data (s : ChatParser) (data : String) : ChatParser :=
  let s1 :=
    if s.makeNextDataName then
      { s with messageAuthor := some (pyStrip (pyRemoveAll data " via @gif")),
               makeNextDataName := false }
    else s
  if s1.makeNextDataText then
    { s1 with messageText := some (pyStrip data), makeNextDataText := false }
  else s1

/-- The two markup event kinds that drive the extractor. -/
inductive MarkupEvent where
  | startTag (tag : String) (attrs : List (String × String))
  | textData (data : String)
deriving DecidableEq, Repr

/-- Dispatch one event to the extractor. -/
def feedEvent (s : ChatParser) (ev : MarkupEvent) : ChatParser :=
  match ev with
  | .startTag t a => handle_starttag s t a
  | .textData d => handle_data s d

/-- Feed a stream of markup events. -/
def feed (s : ChatParser) (evs : List MarkupEvent) : ChatParser :=
  evs.foldl feedEvent s

/-- The event stream of the well-formed single-message markup fragment named by the
spec: a `message`-class tag, a `date`-class tag carrying a `title` attribute `t`,
a `from_name`-class tag followed by text data `a`, and a `text`-class tag followed
by text data `b`. -/
def singleMessageFragment (t a b : String) : List MarkupEvent :=
  [ .startTag "div" [("class", "message")]
  , .startTag "div" [("class", "pull_right date details"), ("title", t)]
  , .startTag "div" [("class", "from_name")]
  , .textData a
  , .startTag "div" [("class", "text")]
  , .textData b ]

/-- An author's cumulative activity timeline: calendar day ordinal ↦ running
message total, listed in ascending date order (the iteration order of the dicts
built by `contributorTimeline`). -/
abbrev Timeline := List (Nat × ℚ)

/-- The amnesty re-basing block of `__main__` applied to one contributor entry
(`c[3]` = `timeline`, `c[1]` = `count`): keep the dates strictly after the cutoff;
if none survive, the timeline becomes empty and the count 0; otherwise take the last
`len(x)` cumulative values (`y[-len(x):]`), subtract the first of them
(`oldMessages`) from every one, and subtract it from the count too. -/
def amnestyRebase (cutoff : Nat) (timeline : Timeline) (count : ℚ) : Timeline × ℚ :=
  let x := (timeline.map Prod.fst).filter (fun day => cutoff < day)
  if x.isEmpty then ([], 0)
  else
    let y := (timeline.map Prod.snd).drop (timeline.length - x.length)
    let oldMessages := y.headD 0
    (x.zip (y.map (fun v => v - oldMessages)), count - oldMessages)

/-- Model of `sorted(timeline.keys())`. -/
def sortedDates (t : Timeline) : List Nat :=
  List.insertionSort (· ≤ ·) (t.map Prod.fst)

/-- Model of `date in timeline` (and equally `date in sorted(timeline.keys())`). -/
def hasDate (t : Timeline) (d : Nat) : Bool :=
  (List.lookup d t).isSome

/-- Model of `firstCommonDate = max(sortedFirst[0], sortedSecond[0])`. -/
def firstCommonDate (t1 t2 : Timeline) : Nat :=
  max ((sortedDates t1).headD 0) ((sortedDates t2).headD 0)

/-- Model of `lastCommonDate = min(sortedFirst[-1], sortedSecond[-1])`. -/
def lastCommonDate (t1 t2 : Timeline) : Nat :=
  min ((sortedDates t1).getLastD 0) ((sortedDates t2).getLastD 0)

/-- The forward-fill alignment loop (`while date != lastCommonDate`), which advances
one day per iteration.  The fuel argument is the number of remaining iterations,
initialised with `lastCommonDate - firstCommonDate`; whenever the window guard has
passed, `firstCommonDate ≤ lastCommonDate`, and the loop runs exactly that many times.
Each iteration remembers the most recent day present in each timeline, steps `date`
forward, and records for the new day the timeline value at that day if present, else
at the remembered fallback day (forward fill). -/
def alignGo (t1 t2 : Timeline) : Nat → Nat → Nat → Nat → Timeline × Timeline
  | 0, _, _, _ => ([], [])
  | Nat.succ fuel, last1, last2, date =>
    let last1' := if hasDate t1 date then date else last1
    let last2' := if hasDate t2 date then date else last2
    let d' := date + 1
    let v1 := (List.lookup (if hasDate t1 d' then d' else last1') t1).getD 0
    let v2 := (List.lookup (if hasDate t2 d' then d' else last2') t2).getD 0
    let r := alignGo t1 t2 fuel last1' last2' d'
    ((d', v1) :: r.1, (d', v2) :: r.2)

/-- The pair `commonFirstTimeline`, `commonSecondTimeline`: the two aligned common
series. -/
def commonTimelines (t1 t2 : Timeline) : Timeline × Timeline :=
  alignGo t1 t2 (lastCommonDate t1 t2 - firstCommonDate t1 t2)
    (firstCommonDate t1 t2) (firstCommonDate t1 t2) (firstCommonDate t1 t2)

/-- Element of a list at an integer index, 0 outside the valid range. -/
def getZ (l : List ℚ) (i : Int) : ℚ :=
  if 0 ≤ i then l.getD i.toNat 0 else 0

/-- Model of `scipy.signal.correlate(a, b)` in its default `'full'` mode: the list of sliding
dot products of the two sequences over all `a.length + b.length - 1` relative shifts.
Only its total sum and its being index-summable matter downstream: the program
immediately reduces it with `+`. -/
def correlateFull (a b : List ℚ) : List ℚ :=
  (List.range (a.length + b.length - 1)).map (fun (k : Nat) =>
    ((List.range b.length).map (fun (j : Nat) =>
      getZ a ((k : Int) + (j : Int) - ((b.length : Int) - 1)) * b.getD j 0)).sum)

/-- One cell of the correlation matrix, before the final `log10(1 + ·)` rescaling
(which is strictly increasing and hence preserves every comparison made of the
cells).  `Except.error` models the uncaught `IndexError` raised by `sortedFirst[0]`
or `sortedSecond[0]` on an empty timeline; `Except.ok 0` on the guard paths models
the printed diagnostic plus `continue`, which leaves the `numpy.zeros` cell at 0. -/
def cellScore (t1 t2 : Timeline) : Except String ℚ :=
  if (sortedDates t1).isEmpty ∨ (sortedDates t2).isEmpty then
    Except.error "IndexError: list index out of range"
  else if ¬ hasDate t1 (firstCommonDate t1 t2) = true ∨ ¬ hasDate t2 (firstCommonDate t1 t2) = true ∨
        ¬ hasDate t1 (lastCommonDate t1 t2) = true ∨ ¬ hasDate t2 (lastCommonDate t1 t2) = true then
    Except.ok 0
  else
    let c := commonTimelines t1 t2
    if c.1.length < 1 ∨ c.2.length < 1 then Except.ok 0
    else
      Except.ok ((correlateFull (c.1.map Prod.snd) (c.2.map Prod.snd)).sum
        / (c.1.length : ℚ) / (c.2.length : ℚ))

/-- The most-triggered row scan (`for j in indices: if matrix[i, j] > mostTriggeredValue`),
carrying the running column index `j`, the best index, the best value (seeded with `0.`)
and the `allAreTheSame` flag. -/
def scanLoop : Nat → Nat → ℚ → Bool → List ℚ → Nat × ℚ × Bool
  | _, idx, val, same, [] => (idx, val, same)
  | j, idx, val, same, x :: rest =>
    if val < x then scanLoop (j + 1) j x false rest
    else scanLoop (j + 1) idx val same rest

/-- The per-row result appended to `mostTriggeredIndices`: the selected column index,
or the sentinel `-1` when `allAreTheSame` stayed `True`. -/
def mostTriggeredScan (row : List ℚ) : Int :=
  let r := scanLoop 0 0 0 true row
  if r.2.2 then -1 else (r.1 : Int)

/-! ## Helper lemmas -/

/-- A non-empty timeline has a non-empty sorted key list. -/
theorem sortedDates_isEmpty_false {t : Timeline} (h : t ≠ []) :
    (sortedDates t).isEmpty = false := by
  have hp := List.perm_insertionSort (α := Nat) (· ≤ ·) (t.map Prod.fst)
  have hlen : (sortedDates t).length = t.length := by
    unfold sortedDates
    rw [hp.length_eq, List.length_map]
  cases hs : sortedDates t with
  | nil =>
    exfalso
    rw [hs] at hlen
    exact h (List.length_eq_zero.mp hlen.symm)
  | cons a l => rfl

/-- The commit step does nothing when a pending field is missing. -/
theorem commitIfComplete_incomplete {s : ChatParser}
    (h : s.messageDate = none ∨ s.messageAuthor = none ∨ s.messageText = none) :
    commitIfComplete s = s := by
  obtain ⟨a, t, d, f1, f2, ms⟩ := s
  cases a <;> cases t <;> cases d <;>
    first
      | rfl
      | (rcases h with h | h | h <;> exact Option.noConfusion h)

/-- Filtering the projected keys is projecting the filtered pairs. -/
theorem filter_map_fst (t : Timeline) (p : Nat → Bool) :
    (t.map Prod.fst).filter p = (t.filter (fun q => p q.1)).map Prod.fst := by
  rw [List.filter_map]
  rfl

/-- In a timeline with strictly increasing keys, the entries with key `> d` form a
suffix: the timeline splits into the `≤ d` entries followed by the `> d` entries. -/
theorem timeline_cutoff_decomp (d : Nat) :
    ∀ t : Timeline, t.Pairwise (fun p q => p.1 < q.1) →
      t = t.filter (fun p => p.1 ≤ d) ++ t.filter (fun p => d < p.1) := by
  intro t
  induction t with
  | nil => intro _; rfl
  | cons x xs ih =>
    intro hp
    rw [List.pairwise_cons] at hp
    obtain ⟨hx, hxs⟩ := hp
    by_cases hcase : d < x.1
    · have h1 : xs.filter (fun p => decide (p.1 ≤ d)) = [] := by
        rw [List.filter_eq_nil_iff]
        intro a ha
        simp only [decide_eq_true_eq, not_le]
        exact hcase.trans (hx a ha)
      have h2 : xs.filter (fun p => decide (d < p.1)) = xs := by
        rw [List.filter_eq_self]
        intro a ha
        simp only [decide_eq_true_eq]
        exact hcase.trans (hx a ha)
      have hf1 : List.filter (fun p => decide (p.1 ≤ d)) (x :: xs) = [] := by
        rw [List.filter_cons, h1]
        simp [Nat.not_le.mpr hcase]
      have hf2 : List.filter (fun p => decide (d < p.1)) (x :: xs) = x :: xs := by
        rw [List.filter_cons, h2]
        simp [hcase]
      rw [hf1, hf2]
      rfl
    · have hf1 : List.filter (fun p => decide (p.1 ≤ d)) (x :: xs)
          = x :: List.filter (fun p => decide (p.1 ≤ d)) xs := by
        rw [List.filter_cons]
        simp [Nat.not_lt.mp hcase]
      have hf2 : List.filter (fun p => decide (d < p.1)) (x :: xs)
          = List.filter (fun p => decide (d < p.1)) xs := by
        rw [List.filter_cons]
        simp [hcase]
      rw [hf1, hf2, List.cons_append]
      exact congrArg (x :: ·) (ih hxs)

/-- Re-zipping the projected keys with the shifted projected values rebuilds the
pair list. -/
theorem zip_map_fst_snd_sub (r : Timeline) (c : ℚ) :
    (r.map Prod.fst).zip ((r.map Prod.snd).map (fun v => v - c))
      = r.map (fun p => (p.1, p.2 - c)) := by
  induction r with
  | nil => rfl
  | cons x xs ih => simp only [List.map_cons, List.zip_cons_cons, ih]

/-- Evaluation of `amnestyRebase` when no date survives the cutoff. -/
theorem amnestyRebase_no_survivor (d : Nat) (tl : Timeline) (n : ℚ)
    (he : tl.filter (fun p => d < p.1) = []) :
    amnestyRebase d tl n = ([], 0) := by
  unfold amnestyRebase
  rw [filter_map_fst, he]
  rfl

/-- Evaluation of `amnestyRebase` when some dates survive the cutoff: it maps the
retained suffix, shifting every value down by the value at the first retained date,
and lowers the count by the same base. -/
theorem amnestyRebase_survivors (d : Nat) (tl : Timeline) (n : ℚ)
    (hs : tl.Pairwise (fun p q => p.1 < q.1))
    (hr : tl.filter (fun p => d < p.1) ≠ []) :
    amnestyRebase d tl n
      = ((tl.filter (fun p => d < p.1)).map
            (fun p => (p.1, p.2 - ((tl.filter (fun p => d < p.1)).headD (0, 0)).2)),
         n - ((tl.filter (fun p => d < p.1)).headD (0, 0)).2) := by
  set r := tl.filter (fun p => d < p.1) with hrdef
  set pre := tl.filter (fun p => p.1 ≤ d) with hpredef
  have hdecomp : tl = pre ++ r := timeline_cutoff_decomp d tl hs
  have hxfst : (tl.map Prod.fst).filter (fun day => d < day) = r.map Prod.fst := by
    rw [filter_map_fst]
  have hxne : (r.map Prod.fst).isEmpty = false := by
    cases hr2 : r with
    | nil => exact absurd hr2 hr
    | cons a l => rfl
  have hylen : tl.length - (r.map Prod.fst).length = pre.length := by
    rw [List.length_map]
    conv_lhs => rw [hdecomp]
    rw [List.length_append]
    omega
  have hy : (tl.map Prod.snd).drop (tl.length - (r.map Prod.fst).length)
      = r.map Prod.snd := by
    rw [hylen]
    conv_lhs => rw [hdecomp, List.map_append, ← List.length_map pre Prod.snd]
    exact List.drop_left _ _
  have hold : (r.map Prod.snd).headD 0 = (r.headD (0, 0)).2 := by
    obtain ⟨a, l, hal⟩ := List.exists_cons_of_ne_nil hr
    rw [hal]
    rfl
  simp only [amnestyRebase]
  rw [hxfst, hy]
  simp only [hxne, Bool.false_eq_true, if_false, hold]
  rw [zip_map_fst_snd_sub]

/-- The days recorded by the alignment loop with `n` remaining iterations starting
at day `d` are exactly `d+1, d+2, …, d+n`, in both aligned series, regardless of the
timelines and fallback days. -/
theorem alignGo_keys (t1 t2 : Timeline) :
    ∀ (n l1 l2 d : Nat),
      (alignGo t1 t2 n l1 l2 d).1.map Prod.fst = (List.range n).map (fun k => d + 1 + k) ∧
      (alignGo t1 t2 n l1 l2 d).2.map Prod.fst = (List.range n).map (fun k => d + 1 + k) := by
  intro n
  induction n with
  | zero => intro l1 l2 d; exact ⟨rfl, rfl⟩
  | succ m ih =>
    intro l1 l2 d
    have hrange : (List.range (m + 1)).map (fun k => d + 1 + k)
        = (d + 1) :: (List.range m).map (fun k => d + 1 + 1 + k) := by
      rw [List.range_succ_eq_map, List.map_cons, List.map_map]
      simp only [Nat.add_zero]
      have hcomp : ((fun k => d + 1 + k) ∘ Nat.succ) = (fun k : Nat => d + 1 + 1 + k) :=
        funext (fun k => by show d + 1 + (k + 1) = d + 1 + 1 + k; omega)
      rw [hcomp]
    obtain ⟨ih1, ih2⟩ := ih (if hasDate t1 d then d else l1) (if hasDate t2 d then d else l2) (d + 1)
    constructor
    · simp only [alignGo, List.map_cons]
      rw [hrange, ih1]
    · simp only [alignGo, List.map_cons]
      rw [hrange, ih2]

/-- Both aligned common series have length `lastCommonDate − firstCommonDate`. -/
theorem commonTimelines_length (t1 t2 : Timeline) :
    (commonTimelines t1 t2).1.length = lastCommonDate t1 t2 - firstCommonDate t1 t2 ∧
    (commonTimelines t1 t2).2.length = lastCommonDate t1 t2 - firstCommonDate t1 t2 := by
  obtain ⟨h1, h2⟩ := alignGo_keys t1 t2 (lastCommonDate t1 t2 - firstCommonDate t1 t2)
    (firstCommonDate t1 t2) (firstCommonDate t1 t2) (firstCommonDate t1 t2)
  constructor
  · have h := congrArg List.length h1
    rwa [List.length_map, List.length_map, List.length_range] at h
  · have h := congrArg List.length h2
    rwa [List.length_map, List.length_map, List.length_range] at h

/-- A key present in a timeline has a successful lookup. -/
theorem hasDate_of_mem_keys (t : Timeline) : ∀ d : Nat, d ∈ t.map Prod.fst → hasDate t d = true := by
  induction t with
  | nil =>
    intro d h
    exact absurd h (List.not_mem_nil d)
  | cons x xs ih =>
    obtain ⟨k, v⟩ := x
    intro d h
    rw [List.map_cons, List.mem_cons] at h
    by_cases hdk : d = k
    · subst hdk
      simp [hasDate, List.lookup]
    · rcases h with h | h
      · exact absurd h hdk
      · have hbeq : (d == k) = false := beq_eq_false_iff_ne.mpr hdk
        have hx := ih d h
        unfold hasDate at hx ⊢
        show (match d == k with | true => some v | false => List.lookup d xs).isSome = true
        rw [hbeq]
        exact hx

/-- A non-empty timeline has a non-empty sorted key list. -/
theorem sortedDates_ne_nil {t : Timeline} (h : t ≠ []) : sortedDates t ≠ [] := by
  intro hnil
  have h2 := sortedDates_isEmpty_false h
  rw [hnil] at h2
  exact Bool.noConfusion h2

/-- Evaluation of `cellScore` when the guards pass but the common window has zero walked days
(`lastCommonDate = firstCommonDate`): the aligned series are empty, the diagnostic
path is taken and the cell stays 0. -/
theorem cellScore_len_zero (t1 t2 : Timeline) (h1 : t1 ≠ []) (h2 : t2 ≠ [])
    (g1 : hasDate t1 (firstCommonDate t1 t2) = true)
    (g2 : hasDate t2 (firstCommonDate t1 t2) = true)
    (g3 : hasDate t1 (lastCommonDate t1 t2) = true)
    (g4 : hasDate t2 (lastCommonDate t1 t2) = true)
    (hn : lastCommonDate t1 t2 - firstCommonDate t1 t2 = 0) :
    cellScore t1 t2 = Except.ok 0 := by
  simp only [cellScore]
  rw [if_neg, if_neg, if_pos]
  · exact Or.inl (by rw [(commonTimelines_length t1 t2).1, hn]; omega)
  · rintro (h | h | h | h)
    · exact h g1
    · exact h g2
    · exact h g3
    · exact h g4
  · rintro (h | h)
    · rw [sortedDates_isEmpty_false h1] at h
      exact Bool.noConfusion h
    · rw [sortedDates_isEmpty_false h2] at h
      exact Bool.noConfusion h

/-! ## Claim theorems -/

/-- C1, counterexample: feeding a fresh extractor exactly the well-formed
single-message fragment (with no further boundary event) leaves the message
sequence empty — not containing exactly one Message as claimed, because the
extractor only commits a pending block when the NEXT `message`-class tag arrives. -/
theorem c1_counterexample :
    (feed initChatParser
        (singleMessageFragment " 01.02.2022 10:00:00 " " Alice " " hi ")).messages = [] ∧
    (feed initChatParser
        (singleMessageFragment " 01.02.2022 10:00:00 " " Alice " " hi ")).messages.length ≠ 1 := by
  decide

/-- C1, amended: for every title `t`, author data `a` and body data `b`, feeding a
fresh extractor the single-message fragment followed by one further
`message`-class boundary tag (which flushes the pending block) yields exactly one
Message whose author is the trimmed author data (with its `" via @gif"` fragments
removed), whose text is the trimmed body data and whose timestamp is the trimmed
title attribute. -/
theorem c1_single_message_extracted (t a b : String) :
    (feed initChatParser
        (singleMessageFragment t a b ++ [.startTag "div" [("class", "message")]])).messages
      = [⟨pyStrip (pyRemoveAll a " via @gif"), pyStrip b, pyStrip t⟩] := rfl

/-- C2, counterexample: at a `message`-class boundary reached with only the author
pending (text and timestamp missing), no Message is emitted, but the pending author
is NOT discarded: it survives the boundary, contradicting the claimed reset. -/
theorem c2_counterexample :
    (feed initChatParser
        [.startTag "div" [("class", "from_name")], .textData "Alice",
         .startTag "div" [("class", "message")]]).messageAuthor = some "Alice" ∧
    (feed initChatParser
        [.startTag "div" [("class", "from_name")], .textData "Alice",
         .startTag "div" [("class", "message")]]).messages = [] := by
  decide

/-- C2, amended: a tag-open event whose class list contains `"message"`, arriving
while the pending fields are not all populated, emits no Message and leaves the
extractor state completely unchanged — the incomplete pending fields are retained
(carried into the next block), not discarded or reset. -/
theorem c2_incomplete_boundary_keeps_state (s : ChatParser) (tag cls : String)
    (hm : "message" ∈ splitOnSpaces cls)
    (h : s.messageDate = none ∨ s.messageAuthor = none ∨ s.messageText = none) :
    handle_starttag s tag [("class", cls)] = s := by
  have hstep : handle_starttag s tag [("class", cls)] = commitIfComplete s := by
    unfold handle_starttag handleAttrs
    simp [hm, handleAttrs]
  rw [hstep, commitIfComplete_incomplete h]

/-- C2, witness for the amended theorem at a concrete incomplete state. -/
theorem c2_incomplete_boundary_keeps_state_witness :
    handle_starttag ⟨some "Alice", none, none, false, false, []⟩ "div" [("class", "message")]
      = ⟨some "Alice", none, none, false, false, []⟩ :=
  c2_incomplete_boundary_keeps_state ⟨some "Alice", none, none, false, false, []⟩ "div"
    "message" (by decide) (Or.inl rfl)

/-- C3: `dateTime` first parses the raw timestamp with `%d.%m.%Y %H:%M:%S`; when the
primary parse succeeds the result is exactly that parse (with the record untouched);
the string `"01.02.2022 10:00:00 UTC+2"` parses, via the fallback that keeps only the
part before `" UTC"`, to the same datetime as `"01.02.2022 10:00:00"`; and the call
fails (the `ValueError` the spec names `TimestampFormatError`) exactly when both the
primary parse and the fallback parse fail. -/
theorem c3_dateTime_fallback :
    (∀ m : Message, dateTime m = none ↔
        (parseTimestamp m.date = none ∧ parseTimestamp (beforeUTC m.date) = none)) ∧
    (∀ m : Message, ∀ dt : DateTime, parseTimestamp m.date = some dt →
        dateTime m = some (dt, m)) ∧
    ((dateTime ⟨"x", "y", "01.02.2022 10:00:00 UTC+2"⟩).map Prod.fst
        = (dateTime ⟨"x", "y", "01.02.2022 10:00:00"⟩).map Prod.fst ∧
      (dateTime ⟨"x", "y", "01.02.2022 10:00:00"⟩).isSome = true) := by
  refine ⟨?_, ?_, by decide⟩
  · intro m
    unfold dateTime
    cases h1 : parseTimestamp m.date <;>
      cases h2 : parseTimestamp (beforeUTC m.date) <;> simp [h1, h2]
  · intro m dt h
    unfold dateTime
    rw [h]

/-- C3, witness: the theorem applied to a concrete message whose primary parse
succeeds. -/
theorem c3_dateTime_fallback_witness :
    dateTime ⟨"x", "y", "01.02.2022 10:00:00"⟩
      = some (⟨2022, 2, 1, 10, 0, 0⟩, ⟨"x", "y", "01.02.2022 10:00:00"⟩) :=
  c3_dateTime_fallback.2.1 ⟨"x", "y", "01.02.2022 10:00:00"⟩ ⟨2022, 2, 1, 10, 0, 0⟩
    (by decide)

/-- C4: amnesty re-basing with cutoff `d` of a cumulative timeline with strictly
increasing dates: the re-based timeline contains no date ≤ `d`; if no date survives,
the timeline becomes empty and the message count 0; otherwise every retained entry
keeps its date with its cumulative value decreased by the base (the cumulative value
at the first retained date, so the first retained value is 0), and the count becomes
`originalCount - base`. -/
theorem c4_amnesty_rebase (d : Nat) (tl : Timeline) (n : ℚ)
    (hs : tl.Pairwise (fun p q => p.1 < q.1)) :
    (∀ p ∈ (amnestyRebase d tl n).1, d < p.1) ∧
    (tl.filter (fun p => d < p.1) = [] → amnestyRebase d tl n = ([], 0)) ∧
    (tl.filter (fun p => d < p.1) ≠ [] →
      (amnestyRebase d tl n
          = ((tl.filter (fun p => d < p.1)).map
                (fun p => (p.1, p.2 - ((tl.filter (fun p => d < p.1)).headD (0, 0)).2)),
             n - ((tl.filter (fun p => d < p.1)).headD (0, 0)).2) ∧
        ((amnestyRebase d tl n).1.headD (0, 0)).2 = 0)) := by
  refine ⟨?_, amnestyRebase_no_survivor d tl n, ?_⟩
  · intro p hp
    by_cases hr : tl.filter (fun q => d < q.1) = []
    · rw [amnestyRebase_no_survivor d tl n hr] at hp
      exact absurd hp (List.not_mem_nil p)
    · rw [amnestyRebase_survivors d tl n hs hr] at hp
      simp only [List.mem_map] at hp
      obtain ⟨q, hq, hpq⟩ := hp
      have hqd := (List.mem_filter.mp hq).2
      rw [← hpq]
      simpa using hqd
  · intro hr
    refine ⟨amnestyRebase_survivors d tl n hs hr, ?_⟩
    rw [amnestyRebase_survivors d tl n hs hr]
    obtain ⟨a, l, hal⟩ := List.exists_cons_of_ne_nil hr
    rw [hal]
    simp

/-- C4, witness: the theorem at the concrete sorted timeline
`{1: 2, 3: 5, 5: 7}` with cutoff 2 and count 7 (base 5 at day 3). -/
theorem c4_amnesty_rebase_witness :
    (∀ p ∈ (amnestyRebase 2 [(1, 2), (3, 5), (5, 7)] 7).1, 2 < p.1) ∧
    (([(1, 2), (3, 5), (5, 7)] : Timeline).filter (fun p => 2 < p.1) = [] →
      amnestyRebase 2 [(1, 2), (3, 5), (5, 7)] 7 = ([], 0)) ∧
    (([(1, 2), (3, 5), (5, 7)] : Timeline).filter (fun p => 2 < p.1) ≠ [] →
      (amnestyRebase 2 [(1, 2), (3, 5), (5, 7)] 7
          = ((([(1, 2), (3, 5), (5, 7)] : Timeline).filter (fun p => 2 < p.1)).map
                (fun p => (p.1, p.2 -
                  ((([(1, 2), (3, 5), (5, 7)] : Timeline).filter
                      (fun p => 2 < p.1)).headD (0, 0)).2)),
             7 - ((([(1, 2), (3, 5), (5, 7)] : Timeline).filter
                      (fun p => 2 < p.1)).headD (0, 0)).2) ∧
        ((amnestyRebase 2 [(1, 2), (3, 5), (5, 7)] 7).1.headD (0, 0)).2 = 0)) :=
  c4_amnesty_rebase 2 [(1, 2), (3, 5), (5, 7)] 7 (by decide)

/-- C5: for A = `{day1: 1, day3: 2}` and B = `{day1: 1, day2: 1, day3: 1}`, the
aligned common series for A is `{day2: 1, day3: 2}`: in particular it reports the
value 1 at day 2, carried forward from day 1 (which A's own timeline holds with
value 1 while having no entry at day 2). -/
theorem c5_forward_fill_day2 :
    (commonTimelines [(1, 1), (3, 2)] [(1, 1), (2, 1), (3, 1)]).1 = [(2, 1), (3, 2)] ∧
    List.lookup 2 (commonTimelines [(1, 1), (3, 2)] [(1, 1), (2, 1), (3, 1)]).1 = some 1 ∧
    List.lookup 2 ([(1, 1), (3, 2)] : Timeline) = none ∧
    List.lookup 1 ([(1, 1), (3, 2)] : Timeline) = some 1 := by
  decide

/-- C6, counterexample: an empty timeline (exactly what amnesty re-basing produces
when no dates survive) does not lead to a diagnostic-plus-zero cell: the indexing
`sortedFirst[0]` fails, modelled as `Except.error`, so the correlation computation
crashes instead of continuing. -/
theorem c6_counterexample :
    cellScore [] [(0, 1)] = Except.error "IndexError: list index out of range" := rfl

/-- C6, amended: for every pair of NON-EMPTY timelines, if the common window is
degenerate (one of its bounds is absent from one of the two timelines), the cell
computation does not fail: a diagnostic is emitted and the cell keeps its initial
value 0.  (With an empty timeline — e.g. produced by amnesty re-basing — the code
instead raises an uncaught `IndexError` at `sortedFirst[0]`.) -/
theorem c6_degenerate_window_cell_zero (t1 t2 : Timeline)
    (h1 : t1 ≠ []) (h2 : t2 ≠ [])
    (hg : hasDate t1 (firstCommonDate t1 t2) = false ∨
          hasDate t2 (firstCommonDate t1 t2) = false ∨
          hasDate t1 (lastCommonDate t1 t2) = false ∨
          hasDate t2 (lastCommonDate t1 t2) = false) :
    cellScore t1 t2 = Except.ok 0 := by
  unfold cellScore
  rw [if_neg, if_pos]
  · rcases hg with hg | hg | hg | hg <;> simp [hg]
  · simp [sortedDates_isEmpty_false h1, sortedDates_isEmpty_false h2]

/-- C6, witness: a concrete pair of non-empty timelines whose window start (day 5)
is absent from the first timeline. -/
theorem c6_degenerate_window_cell_zero_witness :
    cellScore [(0, 1), (10, 2)] [(5, 1), (10, 2)] = Except.ok 0 :=
  c6_degenerate_window_cell_zero [(0, 1), (10, 2)] [(5, 1), (10, 2)]
    (by decide) (by decide) (Or.inl (by decide))

/-- C7, counterexample: in the row `[1, 1]` all scores are equal, yet the scan
returns column index 0 rather than the sentinel `-1`: the sentinel appears only
when no score exceeds the zero seed, not whenever all scores are equal. -/
theorem c7_counterexample :
    mostTriggeredScan [1, 1] = 0 ∧ (∀ x ∈ [(1 : ℚ), 1], x = 1) ∧ (0 : Int) ≠ -1 := by
  decide

/-- Full characterisation of the most-triggered scan loop: the running best value
ends as the maximum of the seed and the scanned scores; the `allAreTheSame` flag
survives exactly when no score exceeded the seed; and the final index either is the
untouched seed index or points at a scanned score equal to the final best value. -/
theorem scanLoop_spec : ∀ (l : List ℚ) (j idx : Nat) (val : ℚ) (b : Bool),
    (∀ x ∈ l, x ≤ (scanLoop j idx val b l).2.1) ∧
    val ≤ (scanLoop j idx val b l).2.1 ∧
    ((scanLoop j idx val b l).2.2 = true ↔ (b = true ∧ ∀ x ∈ l, x ≤ val)) ∧
    (((scanLoop j idx val b l).1 = idx ∧ (scanLoop j idx val b l).2.1 = val ∧
        (scanLoop j idx val b l).2.2 = b) ∨
      (∃ pos : Nat, pos < l.length ∧ (scanLoop j idx val b l).1 = j + pos ∧
        l.getD pos 0 = (scanLoop j idx val b l).2.1 ∧ val < (scanLoop j idx val b l).2.1 ∧
        (scanLoop j idx val b l).2.2 = false)) := by
  intro l
  induction l with
  | nil =>
    intro j idx val b
    exact ⟨by simp, le_refl _, by simp [scanLoop], Or.inl ⟨rfl, rfl, rfl⟩⟩
  | cons x rest ih =>
    intro j idx val b
    by_cases hvx : val < x
    · have hstep : scanLoop j idx val b (x :: rest) = scanLoop (j + 1) j x false rest := by
        simp only [scanLoop, if_pos hvx]
      obtain ⟨ha, hs, hf, hi⟩ := ih (j + 1) j x false
      rw [hstep]
      refine ⟨?_, hvx.le.trans hs, ?_, ?_⟩
      · intro y hy
        rcases List.mem_cons.mp hy with h | h
        · rw [h]; exact hs
        · exact ha y h
      · constructor
        · intro hh
          obtain ⟨hb, _⟩ := hf.mp hh
          exact Bool.noConfusion hb
        · intro hh
          exact absurd (hh.2 x (List.mem_cons_self x rest)) (not_le.mpr hvx)
      · rcases hi with ⟨h1, h2, h3⟩ | ⟨pos, hlt, hp1, hp2, hp3, hp4⟩
        · exact Or.inr ⟨0, Nat.succ_pos _, by rw [h1, Nat.add_zero], by simp [h2],
            by rw [h2]; exact hvx, h3⟩
        · exact Or.inr ⟨pos + 1, Nat.succ_lt_succ hlt, by rw [hp1]; omega,
            by simpa using hp2, hvx.trans hp3, hp4⟩
    · have hxle : x ≤ val := not_lt.mp hvx
      have hstep : scanLoop j idx val b (x :: rest) = scanLoop (j + 1) idx val b rest := by
        simp only [scanLoop, if_neg hvx]
      obtain ⟨ha, hs, hf, hi⟩ := ih (j + 1) idx val b
      rw [hstep]
      refine ⟨?_, hs, ?_, ?_⟩
      · intro y hy
        rcases List.mem_cons.mp hy with h | h
        · rw [h]; exact hxle.trans hs
        · exact ha y h
      · rw [hf]
        constructor
        · intro hh
          refine ⟨hh.1, fun y hy => ?_⟩
          rcases List.mem_cons.mp hy with h | h
          · rw [h]; exact hxle
          · exact hh.2 y h
        · intro hh
          exact ⟨hh.1, fun y hy => hh.2 y (List.mem_cons_of_mem x hy)⟩
      · rcases hi with ⟨h1, h2, h3⟩ | ⟨pos, hlt, hp1, hp2, hp3, hp4⟩
        · exact Or.inl ⟨h1, h2, h3⟩
        · exact Or.inr ⟨pos + 1, Nat.succ_lt_succ hlt, by rw [hp1]; omega,
            by simpa using hp2, hp3, hp4⟩

/-- C7, amended: the scan returns the sentinel `-1` exactly when no score in the row
exceeds the zero seed (so, the cells being nonnegative, exactly when all scores are
zero — NOT merely all-equal: an all-equal positive row yields index 0); and whenever
some score is positive it returns a column index holding the (weakly) maximal,
positive score of the row — the strict running comparison picks the first such
column, not requiring the maximum to be unique. -/
theorem c7_most_triggered (row : List ℚ) :
    (mostTriggeredScan row = -1 ↔ ∀ x ∈ row, x ≤ 0) ∧
    ((∃ x ∈ row, 0 < x) →
      ∃ pos : Nat, pos < row.length ∧ mostTriggeredScan row = (pos : Int) ∧
        0 < row.getD pos 0 ∧ ∀ x ∈ row, x ≤ row.getD pos 0) := by
  obtain ⟨hall, hseed, hflag, hidx⟩ := scanLoop_spec row 0 0 0 true
  simp only [mostTriggeredScan]
  constructor
  · constructor
    · intro h
      by_cases hfb : (scanLoop 0 0 0 true row).2.2 = true
      · exact (hflag.mp hfb).2
      · rw [if_neg hfb] at h
        exact absurd h (by omega)
    · intro h
      rw [if_pos (hflag.mpr ⟨rfl, h⟩)]
  · rintro ⟨x, hx, hx0⟩
    have hne : ¬ ∀ y ∈ row, y ≤ (0 : ℚ) := fun hc => absurd hx0 (not_lt.mpr (hc x hx))
    have hfb : (scanLoop 0 0 0 true row).2.2 = false := by
      cases hfb2 : (scanLoop 0 0 0 true row).2.2
      · rfl
      · exact absurd (hflag.mp hfb2).2 hne
    rcases hidx with ⟨_, _, h3⟩ | ⟨pos, hlt, hp1, hp2, hp3, _⟩
    · rw [h3] at hfb
      exact Bool.noConfusion hfb
    · refine ⟨pos, hlt, ?_, ?_, ?_⟩
      · rw [if_neg (by rw [hfb]; exact Bool.false_ne_true), hp1]
        simp
      · rw [hp2]
        exact hp3
      · intro y hy
        rw [hp2]
        exact hall y hy

/-- C7, witness for the amended theorem: the row `[0, 2, 1]` has a positive score,
the scan selects column 1 (the maximum 2), and the sentinel iff is instantiated. -/
theorem c7_most_triggered_witness :
    (mostTriggeredScan [0, 2, 1] = -1 ↔ ∀ x ∈ [(0 : ℚ), 2, 1], x ≤ 0) ∧
    (∃ pos : Nat, pos < [(0 : ℚ), 2, 1].length ∧
      mostTriggeredScan [0, 2, 1] = (pos : Int) ∧
      0 < [(0 : ℚ), 2, 1].getD pos 0 ∧ ∀ x ∈ [(0 : ℚ), 2, 1], x ≤ [(0 : ℚ), 2, 1].getD pos 0) :=
  ⟨(c7_most_triggered [0, 2, 1]).1,
    (c7_most_triggered [0, 2, 1]).2 ⟨2, by decide, by decide⟩⟩

/-- C9, counterexample: calling `dateTime` on a message whose raw timestamp needs
the `" UTC"` fallback rewrites the stored raw timestamp: afterwards `date` is the
stripped prefix, not the value at construction. -/
theorem c9_counterexample :
    dateTime ⟨"A", "hi", "01.02.2022 10:00:00 UTC+2"⟩
      = some (⟨2022, 2, 1, 10, 0, 0⟩, ⟨"A", "hi", "01.02.2022 10:00:00"⟩) ∧
    ("01.02.2022 10:00:00" : String) ≠ "01.02.2022 10:00:00 UTC+2" := by
  decide

/-- C9, amended: `dateTime` never changes the author or text fields, and leaves the
whole record unchanged whenever the primary parse succeeds; but on the fallback path
(primary parse fails) the stored raw timestamp becomes the part of the original
before `" UTC"`. -/
theorem c9_dateTime_frame (m : Message) (dt : DateTime) (m' : Message)
    (h : dateTime m = some (dt, m')) :
    m'.author = m.author ∧ m'.message = m.message ∧
    (parseTimestamp m.date ≠ none → m' = m) ∧
    (parseTimestamp m.date = none → m'.date = beforeUTC m.date) := by
  unfold dateTime at h
  cases h1 : parseTimestamp m.date with
  | some dt2 =>
    rw [h1] at h
    simp only [Option.some.injEq, Prod.mk.injEq] at h
    obtain ⟨hdt, hm⟩ := h
    subst hm
    exact ⟨rfl, rfl, fun _ => rfl, fun hn => Option.noConfusion hn⟩
  | none =>
    rw [h1] at h
    simp only at h
    cases h2 : parseTimestamp (beforeUTC m.date) with
    | some dt3 =>
      simp only [h2, Option.some.injEq, Prod.mk.injEq] at h
      obtain ⟨hdt, hm⟩ := h
      subst hm
      exact ⟨rfl, rfl, fun hn => absurd rfl hn, fun _ => rfl⟩
    | none =>
      simp [h2] at h

/-- C9, witness: the amended theorem at a concrete message taking the fallback path. -/
theorem c9_dateTime_frame_witness :
    (Message.author ⟨"A", "hi", "01.02.2022 10:00:00"⟩
        = Message.author ⟨"A", "hi", "01.02.2022 10:00:00 UTC+2"⟩) ∧
    (Message.message ⟨"A", "hi", "01.02.2022 10:00:00"⟩
        = Message.message ⟨"A", "hi", "01.02.2022 10:00:00 UTC+2"⟩) ∧
    (parseTimestamp "01.02.2022 10:00:00 UTC+2" ≠ none →
      (⟨"A", "hi", "01.02.2022 10:00:00"⟩ : Message)
        = ⟨"A", "hi", "01.02.2022 10:00:00 UTC+2"⟩) ∧
    (parseTimestamp "01.02.2022 10:00:00 UTC+2" = none →
      Message.date ⟨"A", "hi", "01.02.2022 10:00:00"⟩
        = beforeUTC "01.02.2022 10:00:00 UTC+2") :=
  c9_dateTime_frame ⟨"A", "hi", "01.02.2022 10:00:00 UTC+2"⟩ ⟨2022, 2, 1, 10, 0, 0⟩
    ⟨"A", "hi", "01.02.2022 10:00:00"⟩ (by decide)

/-- Sums of mapped ranges as `Finset` sums. -/
theorem list_range_map_sum (n : Nat) (f : Nat → ℚ) :
    ((List.range n).map f).sum = ∑ k in Finset.range n, f k := by
  induction n with
  | zero => rfl
  | succ m ih =>
    rw [List.range_succ, List.map_append, List.sum_append, Finset.sum_range_succ, ih]
    simp

/-- The sum of the positional defaults-to-zero reads of a list is its sum. -/
theorem getD_range_sum (a : List ℚ) : ∑ i in Finset.range a.length, a.getD i 0 = a.sum := by
  induction a with
  | nil => rfl
  | cons x l ih =>
    rw [List.length_cons, Finset.sum_range_succ']
    simp only [List.getD_cons_succ, List.getD_cons_zero]
    rw [ih, List.sum_cons, add_comm]

/-- Summing the zero-padded reads `getZ a (k - c)` over any window of length at
least `a.length + c` collects exactly the elements of `a`. -/
theorem getZ_sum_shift (a : List ℚ) (c m : Nat) (h : a.length + c ≤ m) :
    ∑ k in Finset.range m, getZ a ((k : Int) - (c : Int)) = a.sum := by
  have hsub : Finset.Ico c (c + a.length) ⊆ Finset.range m := by
    intro k hk
    rw [Finset.mem_Ico] at hk
    rw [Finset.mem_range]
    omega
  have hvan : ∀ k ∈ Finset.range m, k ∉ Finset.Ico c (c + a.length) →
      getZ a ((k : Int) - (c : Int)) = 0 := by
    intro k _ hnot
    rw [Finset.mem_Ico, not_and_or, not_le, not_lt] at hnot
    unfold getZ
    rcases hnot with hlt | hge
    · rw [if_neg (by omega)]
    · rw [if_pos (by omega)]
      apply List.getD_eq_default
      omega
  rw [← Finset.sum_subset hsub hvan, Finset.sum_Ico_eq_sum_range]
  have hlen : c + a.length - c = a.length := by omega
  rw [hlen]
  have heq : ∀ i ∈ Finset.range a.length,
      getZ a (((c + i : Nat) : Int) - (c : Int)) = a.getD i 0 := by
    intro i _
    unfold getZ
    rw [if_pos (by omega)]
    have ht : ((((c + i : Nat) : Int)) - (c : Int)).toNat = i := by omega
    rw [ht]
  rw [Finset.sum_congr rfl heq, getD_range_sum]

/-- The total of the full discrete cross-correlation of two sequences is the product
of their sums: every pairwise product `a i * b j` occurs at exactly one lag. -/
theorem correlateFull_sum (a b : List ℚ) :
    (correlateFull a b).sum = a.sum * b.sum := by
  unfold correlateFull
  rw [list_range_map_sum]
  have houter : ∀ k ∈ Finset.range (a.length + b.length - 1),
      ((List.range b.length).map (fun (j : Nat) =>
        getZ a ((k : Int) + (j : Int) - ((b.length : Int) - 1)) * b.getD j 0)).sum
      = ∑ j in Finset.range b.length,
          getZ a ((k : Int) + (j : Int) - ((b.length : Int) - 1)) * b.getD j 0 := by
    intro k _
    exact list_range_map_sum _ _
  rw [Finset.sum_congr rfl houter, Finset.sum_comm]
  have hcol : ∀ j ∈ Finset.range b.length,
      ∑ k in Finset.range (a.length + b.length - 1),
        getZ a ((k : Int) + (j : Int) - ((b.length : Int) - 1)) * b.getD j 0
      = a.sum * b.getD j 0 := by
    intro j hj
    rw [Finset.mem_range] at hj
    rw [← Finset.sum_mul]
    congr 1
    have harg : ∀ k ∈ Finset.range (a.length + b.length - 1),
        getZ a ((k : Int) + (j : Int) - ((b.length : Int) - 1))
        = getZ a ((k : Int) - ((b.length - 1 - j : Nat) : Int)) := by
      intro k _
      congr 1
      omega
    rw [Finset.sum_congr rfl harg]
    exact getZ_sum_shift a (b.length - 1 - j) (a.length + b.length - 1) (by omega)
  rw [Finset.sum_congr rfl hcol, ← Finset.mul_sum, getD_range_sum]

/-- The first aligned series depends only on the first timeline (and the window),
not on the second timeline or its fallback day. -/
theorem alignGo_fst_indep (t1 : Timeline) :
    ∀ (n : Nat) (t2 t2' : Timeline) (l1 l2 l2' d : Nat),
      (alignGo t1 t2 n l1 l2 d).1 = (alignGo t1 t2' n l1 l2' d).1 := by
  intro n
  induction n with
  | zero => intros; rfl
  | succ m ih =>
    intro t2 t2' l1 l2 l2' d
    simp only [alignGo]
    exact congrArg (List.cons _) (ih t2 t2' _ _ _ _)

/-- Swapping the two timelines (and fallback days) swaps the two aligned series. -/
theorem alignGo_swap (t1 t2 : Timeline) :
    ∀ (n l1 l2 d : Nat), (alignGo t1 t2 n l1 l2 d).2 = (alignGo t2 t1 n l2 l1 d).1 := by
  intro n
  induction n with
  | zero => intros; rfl
  | succ m ih =>
    intro l1 l2 d
    simp only [alignGo]
    exact congrArg (List.cons _) (ih _ _ _)

/-- A successful lookup returns a stored pair. -/
theorem lookup_mem (t : Timeline) :
    ∀ (d : Nat) (v : ℚ), List.lookup d t = some v → (d, v) ∈ t := by
  induction t with
  | nil => intro d v h; exact Option.noConfusion h
  | cons x xs ih =>
    obtain ⟨k, w⟩ := x
    intro d v h
    by_cases hdk : d = k
    · subst hdk
      have hw : some w = some v := by
        have hdef : (match d == d with
            | true => some w
            | false => List.lookup d xs) = some v := h
        rwa [beq_self_eq_true] at hdef
      rw [List.mem_cons]
      exact Or.inl (by rw [Option.some.inj hw])
    · have hstep : List.lookup d ((k, w) :: xs) = List.lookup d xs := by
        show (match d == k with
            | true => some w
            | false => List.lookup d xs) = _
        rw [beq_eq_false_iff_ne.mpr hdk]
      rw [hstep] at h
      exact List.mem_cons_of_mem _ (ih d v h)

/-- The forward-fill reads `(lookup _).getD 0` are nonnegative when the timeline
values are. -/
theorem lookup_getD_nonneg (t : Timeline) (hv : ∀ p ∈ t, 0 ≤ p.2) (d : Nat) :
    0 ≤ (List.lookup d t).getD 0 := by
  cases hl : List.lookup d t with
  | none => exact le_refl 0
  | some v => exact hv (d, v) (lookup_mem t d v hl)

/-- All values of the first aligned series are nonnegative when the first timeline's
values are. -/
theorem alignGo_fst_nonneg (t1 t2 : Timeline) (hv : ∀ p ∈ t1, 0 ≤ p.2) :
    ∀ (n l1 l2 d : Nat), ∀ p ∈ (alignGo t1 t2 n l1 l2 d).1, 0 ≤ p.2 := by
  intro n
  induction n with
  | zero => intro l1 l2 d p hp; exact absurd hp (List.not_mem_nil p)
  | succ m ih =>
    intro l1 l2 d p hp
    simp only [alignGo] at hp
    rcases List.mem_cons.mp hp with h | h
    · rw [h]
      exact lookup_getD_nonneg t1 hv _
    · exact ih _ _ _ p h

/-- The last element (with default) of a non-empty list is an element. -/
theorem getLastD_mem : ∀ (l : List Nat) (d : Nat), l ≠ [] → l.getLastD d ∈ l := by
  intro l
  induction l with
  | nil => intro d h; exact absurd rfl h
  | cons a as ih =>
    intro d _
    cases has : as with
    | nil =>
      subst has
      exact List.mem_cons_self a []
    | cons b bs =>
      subst has
      exact List.mem_cons_of_mem a (ih a (List.cons_ne_nil b bs))

/-- Evaluation of `cellScore` when all guards pass and the window has at least one walked day:
the cell is the product of the aligned sums normalised by the squared window
length (the full cross-correlation total being that product). -/
theorem cellScore_eval (t1 t2 : Timeline) (h1 : t1 ≠ []) (h2 : t2 ≠ [])
    (g1 : hasDate t1 (firstCommonDate t1 t2) = true)
    (g2 : hasDate t2 (firstCommonDate t1 t2) = true)
    (g3 : hasDate t1 (lastCommonDate t1 t2) = true)
    (g4 : hasDate t2 (lastCommonDate t1 t2) = true)
    (hn : 0 < lastCommonDate t1 t2 - firstCommonDate t1 t2) :
    cellScore t1 t2 = Except.ok
      (((commonTimelines t1 t2).1.map Prod.snd).sum
        * ((commonTimelines t1 t2).2.map Prod.snd).sum
        / ((lastCommonDate t1 t2 - firstCommonDate t1 t2 : Nat) : ℚ)
        / ((lastCommonDate t1 t2 - firstCommonDate t1 t2 : Nat) : ℚ)) := by
  simp only [cellScore]
  rw [if_neg, if_neg, if_neg]
  · rw [correlateFull_sum, (commonTimelines_length t1 t2).1, (commonTimelines_length t1 t2).2]
  · rintro (h | h)
    · rw [(commonTimelines_length t1 t2).1] at h
      omega
    · rw [(commonTimelines_length t1 t2).2] at h
      omega
  · rintro (h | h | h | h)
    · exact h g1
    · exact h g2
    · exact h g3
    · exact h g4
  · rintro (h | h)
    · rw [sortedDates_isEmpty_false h1] at h
      exact Bool.noConfusion h
    · rw [sortedDates_isEmpty_false h2] at h
      exact Bool.noConfusion h

/-- C10: when both window bounds `s = firstCommonDate` and `e = lastCommonDate` are
present in both timelines, the aligned common series contain exactly the days
`s+1, …, e` — the first common day `s` itself is excluded — and in the single-day
overlap case `s = e` both aligned series are empty, the diagnostic path is taken,
and the cell is left at 0. -/
theorem c10_aligned_window (t1 t2 : Timeline)
    (g1 : hasDate t1 (firstCommonDate t1 t2) = true)
    (g2 : hasDate t2 (firstCommonDate t1 t2) = true)
    (g3 : hasDate t1 (lastCommonDate t1 t2) = true)
    (g4 : hasDate t2 (lastCommonDate t1 t2) = true) :
    ((commonTimelines t1 t2).1.map Prod.fst
        = (List.range (lastCommonDate t1 t2 - firstCommonDate t1 t2)).map
            (fun k => firstCommonDate t1 t2 + 1 + k) ∧
      (commonTimelines t1 t2).2.map Prod.fst
        = (List.range (lastCommonDate t1 t2 - firstCommonDate t1 t2)).map
            (fun k => firstCommonDate t1 t2 + 1 + k)) ∧
    firstCommonDate t1 t2 ∉ (commonTimelines t1 t2).1.map Prod.fst ∧
    (firstCommonDate t1 t2 = lastCommonDate t1 t2 → cellScore t1 t2 = Except.ok 0) := by
  have hkeys := alignGo_keys t1 t2 (lastCommonDate t1 t2 - firstCommonDate t1 t2)
    (firstCommonDate t1 t2) (firstCommonDate t1 t2) (firstCommonDate t1 t2)
  refine ⟨hkeys, ?_, ?_⟩
  · intro hmem
    unfold commonTimelines at hmem
    rw [hkeys.1] at hmem
    obtain ⟨k, _, hk⟩ := List.mem_map.mp hmem
    omega
  · intro hse
    have ht1 : t1 ≠ [] := by
      intro hnil
      rw [hnil] at g1
      exact Bool.noConfusion g1
    have ht2 : t2 ≠ [] := by
      intro hnil
      rw [hnil] at g2
      exact Bool.noConfusion g2
    exact cellScore_len_zero t1 t2 ht1 ht2 g1 g2 g3 g4 (by omega)

/-- C10, witness: single-day overlap `s = e = 5`; both aligned series are empty and
the cell is 0. -/
theorem c10_aligned_window_witness :
    (((commonTimelines [(5, 3)] [(5, 2)]).1.map Prod.fst
        = (List.range (lastCommonDate [(5, 3)] [(5, 2)] - firstCommonDate [(5, 3)] [(5, 2)])).map
            (fun k => firstCommonDate [(5, 3)] [(5, 2)] + 1 + k) ∧
      (commonTimelines [(5, 3)] [(5, 2)]).2.map Prod.fst
        = (List.range (lastCommonDate [(5, 3)] [(5, 2)] - firstCommonDate [(5, 3)] [(5, 2)])).map
            (fun k => firstCommonDate [(5, 3)] [(5, 2)] + 1 + k)) ∧
    firstCommonDate [(5, 3)] [(5, 2)] ∉ (commonTimelines [(5, 3)] [(5, 2)]).1.map Prod.fst ∧
    (firstCommonDate [(5, 3)] [(5, 2)] = lastCommonDate [(5, 3)] [(5, 2)] →
      cellScore [(5, 3)] [(5, 2)] = Except.ok 0)) :=
  c10_aligned_window [(5, 3)] [(5, 2)] (by decide) (by decide) (by decide) (by decide)

/-- C8, counterexample: for author i with timeline `{1: 1, 4: 2}` the diagonal
cell score is 16/9, but pairing i with author j holding `{1: 10, 4: 11}` gives the
row-i cell score 124/9 > 16/9 — the diagonal is NOT the maximum of row i.  (Matrix
cells are `log10(1 + score)`; `log10(1 + ·)` is strictly increasing, so the cells
compare the same way as these scores.) -/
theorem c8_counterexample :
    cellScore [(1, 1), (4, 2)] [(1, 1), (4, 2)] = Except.ok (16 / 9) ∧
    cellScore [(1, 1), (4, 2)] [(1, 10), (4, 11)] = Except.ok (124 / 9) ∧
    (16 : ℚ) / 9 < 124 / 9 := by
  refine ⟨?_, ?_, by norm_num⟩
  · have hw : lastCommonDate ([(1, 1), (4, 2)] : Timeline) ([(1, 1), (4, 2)] : Timeline)
        - firstCommonDate ([(1, 1), (4, 2)] : Timeline) ([(1, 1), (4, 2)] : Timeline) = 3 := by
      decide
    have hc : commonTimelines ([(1, 1), (4, 2)] : Timeline) ([(1, 1), (4, 2)] : Timeline)
        = ([(2, 1), (3, 1), (4, 2)], [(2, 1), (3, 1), (4, 2)]) := by decide
    rw [cellScore_eval _ _ (by decide) (by decide) (by decide) (by decide) (by decide)
      (by decide) (by decide), hw, hc]
    congr 1
    simp only [List.map_cons, List.map_nil, List.sum_cons, List.sum_nil]
    norm_num
  · have hw : lastCommonDate ([(1, 1), (4, 2)] : Timeline) ([(1, 10), (4, 11)] : Timeline)
        - firstCommonDate ([(1, 1), (4, 2)] : Timeline) ([(1, 10), (4, 11)] : Timeline) = 3 := by
      decide
    have hc : commonTimelines ([(1, 1), (4, 2)] : Timeline) ([(1, 10), (4, 11)] : Timeline)
        = ([(2, 1), (3, 1), (4, 2)], [(2, 10), (3, 10), (4, 11)]) := by decide
    rw [cellScore_eval _ _ (by decide) (by decide) (by decide) (by decide) (by decide)
      (by decide) (by decide), hw, hc]
    congr 1
    simp only [List.map_cons, List.map_nil, List.sum_cons, List.sum_nil]
    norm_num

/-- C8, amended: the self-correlation cell need not be the maximum of its row
(counterexample above); what does hold, for any two non-empty nonnegative timelines
spanning the same first and last dates, is that the cell for the pair never exceeds
the larger of the two diagonal cells — so within a group of authors with a common
span, the matrix maximum sits on the diagonal. -/
theorem c8_same_span_diag_bound (t1 t2 : Timeline)
    (h1 : t1 ≠ []) (h2 : t2 ≠ [])
    (hv1 : ∀ p ∈ t1, 0 ≤ p.2) (hv2 : ∀ p ∈ t2, 0 ≤ p.2)
    (hf : (sortedDates t1).headD 0 = (sortedDates t2).headD 0)
    (hl : (sortedDates t1).getLastD 0 = (sortedDates t2).getLastD 0) :
    ∃ s12 s11 s22 : ℚ,
      cellScore t1 t2 = Except.ok s12 ∧ cellScore t1 t1 = Except.ok s11 ∧
      cellScore t2 t2 = Except.ok s22 ∧ s12 ≤ max s11 s22 := by
  have hfc12 : firstCommonDate t1 t2 = (sortedDates t1).headD 0 := by
    unfold firstCommonDate
    rw [← hf, max_self]
  have hfc11 : firstCommonDate t1 t1 = (sortedDates t1).headD 0 := by
    unfold firstCommonDate
    rw [max_self]
  have hfc22 : firstCommonDate t2 t2 = (sortedDates t1).headD 0 := by
    unfold firstCommonDate
    rw [max_self]
    exact hf.symm
  have hlc12 : lastCommonDate t1 t2 = (sortedDates t1).getLastD 0 := by
    unfold lastCommonDate
    rw [← hl, min_self]
  have hlc11 : lastCommonDate t1 t1 = (sortedDates t1).getLastD 0 := by
    unfold lastCommonDate
    rw [min_self]
  have hlc22 : lastCommonDate t2 t2 = (sortedDates t1).getLastD 0 := by
    unfold lastCommonDate
    rw [min_self]
    exact hl.symm
  have hmem_f1 : (sortedDates t1).headD 0 ∈ t1.map Prod.fst := by
    have hne := sortedDates_ne_nil h1
    have hmem : (sortedDates t1).headD 0 ∈ sortedDates t1 := by
      cases hs : sortedDates t1 with
      | nil => exact absurd hs hne
      | cons a l => exact List.mem_cons_self a l
    exact (List.perm_insertionSort (· ≤ ·) (t1.map Prod.fst)).mem_iff.mp hmem
  have hmem_f2 : (sortedDates t1).headD 0 ∈ t2.map Prod.fst := by
    rw [hf]
    have hne := sortedDates_ne_nil h2
    have hmem : (sortedDates t2).headD 0 ∈ sortedDates t2 := by
      cases hs : sortedDates t2 with
      | nil => exact absurd hs hne
      | cons a l => exact List.mem_cons_self a l
    exact (List.perm_insertionSort (· ≤ ·) (t2.map Prod.fst)).mem_iff.mp hmem
  have hmem_l1 : (sortedDates t1).getLastD 0 ∈ t1.map Prod.fst :=
    (List.perm_insertionSort (· ≤ ·) (t1.map Prod.fst)).mem_iff.mp
      (getLastD_mem _ 0 (sortedDates_ne_nil h1))
  have hmem_l2 : (sortedDates t1).getLastD 0 ∈ t2.map Prod.fst := by
    rw [hl]
    exact (List.perm_insertionSort (· ≤ ·) (t2.map Prod.fst)).mem_iff.mp
      (getLastD_mem _ 0 (sortedDates_ne_nil h2))
  by_cases hn : (sortedDates t1).getLastD 0 - (sortedDates t1).headD 0 = 0
  · refine ⟨0, 0, 0, ?_, ?_, ?_, by norm_num⟩
    · exact cellScore_len_zero t1 t2 h1 h2
        (by rw [hfc12]; exact hasDate_of_mem_keys t1 _ hmem_f1)
        (by rw [hfc12]; exact hasDate_of_mem_keys t2 _ hmem_f2)
        (by rw [hlc12]; exact hasDate_of_mem_keys t1 _ hmem_l1)
        (by rw [hlc12]; exact hasDate_of_mem_keys t2 _ hmem_l2)
        (by rw [hlc12, hfc12]; exact hn)
    · exact cellScore_len_zero t1 t1 h1 h1
        (by rw [hfc11]; exact hasDate_of_mem_keys t1 _ hmem_f1)
        (by rw [hfc11]; exact hasDate_of_mem_keys t1 _ hmem_f1)
        (by rw [hlc11]; exact hasDate_of_mem_keys t1 _ hmem_l1)
        (by rw [hlc11]; exact hasDate_of_mem_keys t1 _ hmem_l1)
        (by rw [hlc11, hfc11]; exact hn)
    · exact cellScore_len_zero t2 t2 h2 h2
        (by rw [hfc22]; exact hasDate_of_mem_keys t2 _ hmem_f2)
        (by rw [hfc22]; exact hasDate_of_mem_keys t2 _ hmem_f2)
        (by rw [hlc22]; exact hasDate_of_mem_keys t2 _ hmem_l2)
        (by rw [hlc22]; exact hasDate_of_mem_keys t2 _ hmem_l2)
        (by rw [hlc22, hfc22]; exact hn)
  · have hn' : 0 < (sortedDates t1).getLastD 0 - (sortedDates t1).headD 0 :=
      Nat.pos_of_ne_zero hn
    have hA12 : (commonTimelines t1 t2).1 = (commonTimelines t1 t1).1 := by
      unfold commonTimelines
      rw [hfc12, hfc11, hlc12, hlc11]
      exact alignGo_fst_indep t1 _ t2 t1 _ _ _ _
    have hB12 : (commonTimelines t1 t2).2 = (commonTimelines t2 t2).1 := by
      unfold commonTimelines
      rw [hfc12, hfc22, hlc12, hlc22]
      rw [alignGo_swap t1 t2 _ _ _ _]
      exact alignGo_fst_indep t2 _ t1 t2 _ _ _ _
    have hA11 : (commonTimelines t1 t1).2 = (commonTimelines t1 t1).1 := by
      unfold commonTimelines
      rw [alignGo_swap t1 t1 _ _ _ _]
    have hB22 : (commonTimelines t2 t2).2 = (commonTimelines t2 t2).1 := by
      unfold commonTimelines
      rw [alignGo_swap t2 t2 _ _ _ _]
    have he12 := cellScore_eval t1 t2 h1 h2
      (by rw [hfc12]; exact hasDate_of_mem_keys t1 _ hmem_f1)
      (by rw [hfc12]; exact hasDate_of_mem_keys t2 _ hmem_f2)
      (by rw [hlc12]; exact hasDate_of_mem_keys t1 _ hmem_l1)
      (by rw [hlc12]; exact hasDate_of_mem_keys t2 _ hmem_l2)
      (by rw [hlc12, hfc12]; exact hn')
    have he11 := cellScore_eval t1 t1 h1 h1
      (by rw [hfc11]; exact hasDate_of_mem_keys t1 _ hmem_f1)
      (by rw [hfc11]; exact hasDate_of_mem_keys t1 _ hmem_f1)
      (by rw [hlc11]; exact hasDate_of_mem_keys t1 _ hmem_l1)
      (by rw [hlc11]; exact hasDate_of_mem_keys t1 _ hmem_l1)
      (by rw [hlc11, hfc11]; exact hn')
    have he22 := cellScore_eval t2 t2 h2 h2
      (by rw [hfc22]; exact hasDate_of_mem_keys t2 _ hmem_f2)
      (by rw [hfc22]; exact hasDate_of_mem_keys t2 _ hmem_f2)
      (by rw [hlc22]; exact hasDate_of_mem_keys t2 _ hmem_l2)
      (by rw [hlc22]; exact hasDate_of_mem_keys t2 _ hmem_l2)
      (by rw [hlc22, hfc22]; exact hn')
    rw [hlc12, hfc12, hA12, hB12] at he12
    rw [hlc11, hfc11, hA11] at he11
    rw [hlc22, hfc22, hB22] at he22
    have hA0 : 0 ≤ ((commonTimelines t1 t1).1.map Prod.snd).sum := by
      apply List.sum_nonneg
      intro x hx
      obtain ⟨p, hp, hpx⟩ := List.mem_map.mp hx
      rw [← hpx]
      exact alignGo_fst_nonneg t1 t1 hv1 _ _ _ _ p hp
    have hB0 : 0 ≤ ((commonTimelines t2 t2).1.map Prod.snd).sum := by
      apply List.sum_nonneg
      intro x hx
      obtain ⟨p, hp, hpx⟩ := List.mem_map.mp hx
      rw [← hpx]
      exact alignGo_fst_nonneg t2 t2 hv2 _ _ _ _ p hp
    have hN0 : (0 : ℚ) <
        (((sortedDates t1).getLastD 0 - (sortedDates t1).headD 0 : Nat) : ℚ) := by
      exact_mod_cast hn'
    refine ⟨_, _, _, he12, he11, he22, ?_⟩
    have hAB : ((commonTimelines t1 t1).1.map Prod.snd).sum
          * ((commonTimelines t2 t2).1.map Prod.snd).sum
        ≤ max (((commonTimelines t1 t1).1.map Prod.snd).sum
                * ((commonTimelines t1 t1).1.map Prod.snd).sum)
              (((commonTimelines t2 t2).1.map Prod.snd).sum
                * ((commonTimelines t2 t2).1.map Prod.snd).sum) := by
      rcases le_total ((commonTimelines t1 t1).1.map Prod.snd).sum
        ((commonTimelines t2 t2).1.map Prod.snd).sum with hab | hab
      · exact le_max_of_le_right (mul_le_mul_of_nonneg_right hab hB0)
      · exact le_max_of_le_left (mul_le_mul_of_nonneg_left hab hA0)
    calc ((commonTimelines t1 t1).1.map Prod.snd).sum
          * ((commonTimelines t2 t2).1.map Prod.snd).sum
          / (((sortedDates t1).getLastD 0 - (sortedDates t1).headD 0 : Nat) : ℚ)
          / (((sortedDates t1).getLastD 0 - (sortedDates t1).headD 0 : Nat) : ℚ)
        ≤ max (((commonTimelines t1 t1).1.map Prod.snd).sum
                * ((commonTimelines t1 t1).1.map Prod.snd).sum)
              (((commonTimelines t2 t2).1.map Prod.snd).sum
                * ((commonTimelines t2 t2).1.map Prod.snd).sum)
          / (((sortedDates t1).getLastD 0 - (sortedDates t1).headD 0 : Nat) : ℚ)
          / (((sortedDates t1).getLastD 0 - (sortedDates t1).headD 0 : Nat) : ℚ) := by
          exact (div_le_div_iff_of_pos_right hN0).mpr
            ((div_le_div_iff_of_pos_right hN0).mpr hAB)
      _ = max (((commonTimelines t1 t1).1.map Prod.snd).sum
                * ((commonTimelines t1 t1).1.map Prod.snd).sum
                / (((sortedDates t1).getLastD 0 - (sortedDates t1).headD 0 : Nat) : ℚ)
                / (((sortedDates t1).getLastD 0 - (sortedDates t1).headD 0 : Nat) : ℚ))
              (((commonTimelines t2 t2).1.map Prod.snd).sum
                * ((commonTimelines t2 t2).1.map Prod.snd).sum
                / (((sortedDates t1).getLastD 0 - (sortedDates t1).headD 0 : Nat) : ℚ)
                / (((sortedDates t1).getLastD 0 - (sortedDates t1).headD 0 : Nat) : ℚ)) := by
          rw [max_div_div_right hN0.le, max_div_div_right hN0.le]

/-- C8, witness for the amended theorem: the two same-span timelines of the
counterexample input. -/
theorem c8_same_span_diag_bound_witness :
    ∃ s12 s11 s22 : ℚ,
      cellScore [(1, 1), (4, 2)] [(1, 10), (4, 11)] = Except.ok s12 ∧
      cellScore [(1, 1), (4, 2)] [(1, 1), (4, 2)] = Except.ok s11 ∧
      cellScore [(1, 10), (4, 11)] [(1, 10), (4, 11)] = Except.ok s22 ∧
      s12 ≤ max s11 s22 :=
  c8_same_span_diag_bound [(1, 1), (4, 2)] [(1, 10), (4, 11)]
    (by decide) (by decide) (by decide) (by decide) (by decide) (by decide)

